import Mathlib

/-!
Verification of the MJPEG receiver module (`mjpeg.h`): RTP header
serialisation/deserialisation, RFC2435 JPEG payload-header parsing with the
optional in-band quantization-table extension, default quantization-table
synthesis, canonical Huffman code assignment, and JFIF header construction.

Buffers of `uint8_t` are modelled as `List Nat`; machine integers are `Nat`
with explicit `% 2^w` where C truncation can occur.  Fallible operations
return the thrown `std::runtime_error` message in an `Except`/`Option`
value.  The member functions that mutate `this` are modelled by explicit
state passing: they take the receiver object and return the updated object
together with the (optional) error raised.
-/

namespace Mjpeg

/-- Message of the `std::runtime_error` thrown by `RtpHeader::Deserialise`
when fewer than 12 bytes remain. -/
def errRtpTrunc : String :=
  "The available buffer size was less than the minimum RTP header length."

/-- Message thrown by `JpegRtpHeader::Deserialise` for a short base header,
and (verbatim the same string) for a short quantization-extension header. -/
def errJpegTrunc : String :=
  "The available buffer size was less than the minimum JPEG RTP header length."

/-- Message thrown for a non-default type-specific byte. -/
def errTypeSpec : String :=
  "This implementation does not support a non default RTP JPEG type specifier."

/-- Message thrown for a type byte in the restart-marker range. -/
def errRestart : String :=
  "This implementation does not support JPEG restarts."

/-- Message thrown when the quantization table data is truncated. -/
def errQTableTrunc : String :=
  "The available buffer size is shorter than the JPEG Quantization header length."

/-- Modelled from the spec: `read_16` of `endiautils.h` (not under `src/`),
big-endian 16-bit read (spec section 6). -/
def read_16 (buffer : List Nat) (posn : Nat) : Nat :=
  buffer.getD posn 0 * 256 + buffer.getD (posn + 1) 0

/-- Modelled from the spec: `read_24` of `endiautils.h` (not under `src/`),
big-endian 24-bit read (spec section 6, fragment offset field). -/
def read_24 (buffer : List Nat) (posn : Nat) : Nat :=
  buffer.getD posn 0 * 65536 + buffer.getD (posn + 1) 0 * 256 +
    buffer.getD (posn + 2) 0

/-- Modelled from the spec: `read_32` of `endiautils.h` (not under `src/`),
big-endian 32-bit read (spec section 6). -/
def read_32 (buffer : List Nat) (posn : Nat) : Nat :=
  buffer.getD posn 0 * 16777216 + buffer.getD (posn + 1) 0 * 65536 +
    buffer.getD (posn + 2) 0 * 256 + buffer.getD (posn + 3) 0

/-- Modelled from the spec: `write_16` of `endiautils.h` (not under `src/`),
appends a 16-bit value big-endian (spec section 6). -/
def write_16 (v : Nat) : List Nat :=
  [v / 256 % 256, v % 256]

/-- Modelled from the spec: `write_32` of `endiautils.h` (not under `src/`),
appends a 32-bit value big-endian (spec section 6). -/
def write_32 (v : Nat) : List Nat :=
  [v / 16777216 % 256, v / 65536 % 256, v / 256 % 256, v % 256]

/-- The 12-byte RTP header (all multi-bit fields stored widened, as the
`uint8_t`/`uint16_t`/`uint32_t` members of `RtpHeader`). -/
structure RtpHeader where
  Version : Nat
  PaddingFlag : Nat
  HeaderExtensionFlag : Nat
  CSRCCount : Nat
  MarkerBit : Nat
  PayloadType : Nat
  SeqNum : Nat
  Timestamp : Nat
  SyncSource : Nat
  deriving DecidableEq, Repr

/-- `RtpHeader::Serialise`: packs the fields into 12 bytes.  Each
`push_back` argument is masked to one byte (`% 256` models the implicit
`uint8_t` conversion; the masks already keep every value below 256). -/
def RtpHeader.Serialise (h : RtpHeader) : List Nat :=
  [((h.Version <<< 6 &&& 0xc0) ||| (h.PaddingFlag <<< 5 &&& 0x20) |||
      (h.HeaderExtensionFlag <<< 4 &&& 0x10) ||| (h.CSRCCount &&& 0x0f)) % 256,
   ((h.MarkerBit <<< 7 &&& 0x80) ||| (h.PayloadType &&& 0x7f)) % 256]
  ++ write_16 h.SeqNum ++ write_32 h.Timestamp ++ write_32 h.SyncSource

/-- `RtpHeader::Deserialise`, state-passing form: takes the receiver
object, returns the updated object and the error raised, if any.
The C++ length check `buffer.size() - startPosn < 12` is in `size_t`
arithmetic; for `startPosn ≤ buffer.size()` (the only defined situation)
it coincides with the truncated `Nat` subtraction used here. -/
def RtpHeader.Deserialise (h : RtpHeader) (buffer : List Nat) (startPosn : Nat) :
    RtpHeader × Option String :=
  if buffer.length - startPosn < 12 then
    (h, some errRtpTrunc)
  else
    ({ Version := buffer.getD startPosn 0 >>> 6 &&& 0x03,
       PaddingFlag := buffer.getD startPosn 0 >>> 5 &&& 0x01,
       HeaderExtensionFlag := buffer.getD startPosn 0 >>> 4 &&& 0x01,
       CSRCCount := buffer.getD startPosn 0 &&& 0x0f,
       MarkerBit := buffer.getD (startPosn + 1) 0 >>> 7 &&& 0x01,
       PayloadType := buffer.getD (startPosn + 1) 0 &&& 0x7f,
       SeqNum := read_16 buffer (startPosn + 2),
       Timestamp := read_32 buffer (startPosn + 4),
       SyncSource := read_32 buffer (startPosn + 8) }, none)

/-- The default-constructed `RtpHeader` (member initialisers of the class:
version 2, everything else zero). -/
def RtpHeader.init : RtpHeader :=
  { Version := 2, PaddingFlag := 0, HeaderExtensionFlag := 0, CSRCCount := 0,
    MarkerBit := 0, PayloadType := 0, SeqNum := 0, Timestamp := 0, SyncSource := 0 }

/-- Functional view of `RtpHeader::Deserialise` on a fresh header: returns
the parsed header or the thrown error message. -/
def RtpHeader.parse (buffer : List Nat) (startPosn : Nat) : Except String RtpHeader :=
  match RtpHeader.Deserialise RtpHeader.init buffer startPosn with
  | (h, none) => Except.ok h
  | (_, some e) => Except.error e

/-- The RFC2435 JPEG payload header (`JpegRtpHeader`).  The C++ field
`Type` is named `TypeByte` here (`Type` is reserved in Lean). -/
structure JpegRtpHeader where
  TypeSpecifier : Nat
  Offset : Nat
  TypeByte : Nat
  Q : Nat
  Width : Nat
  Height : Nat
  Mbz : Nat
  Precision : Nat
  Length : Nat
  QTable : List Nat
  deriving DecidableEq, Repr

/-- A concrete fully-zeroed `JpegRtpHeader` (the class gives `Mbz`,
`Precision`, `Length` and `QTable` these values; the remaining members are
left indeterminate by C++, taken as 0 for a definite starting state). -/
def JpegRtpHeader.init : JpegRtpHeader :=
  { TypeSpecifier := 0, Offset := 0, TypeByte := 0, Q := 0, Width := 0,
    Height := 0, Mbz := 0, Precision := 0, Length := 0, QTable := [] }

/-- `JpegRtpHeader::Deserialise`, state-passing form, mirroring the source
statement by statement: the eight base bytes are assigned to the object
*before* the type-specifier / restart-marker validation, and the extension
header bytes are assigned before the table-length validation.  Size checks
use truncated `Nat` subtraction, which matches the C++ `size_t` arithmetic
whenever `startPosn ≤ buffer.length`. -/
def JpegRtpHeader.Deserialise (h : JpegRtpHeader) (buffer : List Nat)
    (startPosn : Nat) : JpegRtpHeader × Option String :=
  if buffer.length - startPosn < 8 then
    (h, some errJpegTrunc)
  else
    let h := { h with
      TypeSpecifier := buffer.getD startPosn 0,
      Offset := read_24 buffer (startPosn + 1),
      TypeByte := buffer.getD (startPosn + 4) 0,
      Q := buffer.getD (startPosn + 5) 0,
      Width := buffer.getD (startPosn + 6) 0,
      Height := buffer.getD (startPosn + 7) 0 }
    if h.TypeSpecifier ≠ 0 then
      (h, some errTypeSpec)
    else if 64 ≤ h.TypeByte ∧ h.TypeByte ≤ 127 then
      (h, some errRestart)
    else if h.Offset = 0 ∧ 128 ≤ h.Q then
      if buffer.length - startPosn - 8 < 4 then
        (h, some errJpegTrunc)
      else
        let h := { h with
          Mbz := buffer.getD (startPosn + 8) 0,
          Precision := buffer.getD (startPosn + 9) 0,
          Length := read_16 buffer (startPosn + 10) }
        if 0 < h.Length then
          if buffer.length - startPosn - 8 - 4 < h.Length then
            (h, some errQTableTrunc)
          else
            ({ h with QTable := h.QTable ++ (buffer.drop (startPosn + 12)).take h.Length },
             none)
        else
          (h, none)
    else
      (h, none)

/-- Functional view of `JpegRtpHeader::Deserialise` on a fresh header. -/
def JpegRtpHeader.parse (buffer : List Nat) (startPosn : Nat) :
    Except String JpegRtpHeader :=
  match JpegRtpHeader.Deserialise JpegRtpHeader.init buffer startPosn with
  | (h, none) => Except.ok h
  | (_, some e) => Except.error e

/-! ### Huffman canonical code assignment (`Huffman::ff_mjpeg_build_huffman_codes`) -/

/-- Pointwise update of a map `Nat → Nat`, modelling an array store. -/
def upd (f : Nat → Nat) (k v : Nat) : Nat → Nat :=
  fun n => if n = k then v else f n

/-- The state mutated by `ff_mjpeg_build_huffman_codes`: the two output
arrays (as total maps over symbol values) and the running code counter
(the local variable `code`; it stays far below `2^31`, so plain `Nat`
arithmetic is exact). -/
structure HuffState where
  huff_size : Nat → Nat
  huff_code : Nat → Nat
  code : Nat

/-- One iteration of the inner loop body: `sym = val_table[k++]`; assign
size/code unless `sym` is a repeated 0 (`sym != 0 || huff_size[sym] == 0`),
then `code++`.  `huff_code` is a `uint16_t` array, so the store truncates
the `int` counter to 16 bits (`% 65536`; the counter itself stays far
below `2^31`). -/
def assignSym (i sym : Nat) (st : HuffState) : HuffState :=
  if sym ≠ 0 ∨ st.huff_size sym = 0 then
    { huff_size := upd st.huff_size sym i,
      huff_code := upd st.huff_code sym (st.code % 65536),
      code := st.code + 1 }
  else
    { st with code := st.code + 1 }

/-- The inner loop `for (j = 0; j < nb; j++)` at code length `i`, reading
`nb` symbols from the value table starting at index `k`. -/
def procSyms (vals : Nat → Nat) (i k nb : Nat) (st : HuffState) : HuffState :=
  match nb with
  | 0 => st
  | Nat.succ n => procSyms vals i (k + 1) n (assignSym i (vals k) st)

/-- The outer loop `for (i = 1; i <= 16; i++)` over the given list of code
lengths, with `code <<= 1` between lengths; `k` is the running value-table
index. -/
def procLevels (bits vals : Nat → Nat) (levels : List Nat) (k : Nat)
    (st : HuffState) : HuffState :=
  match levels with
  | [] => st
  | i :: rest =>
      let st1 := procSyms vals i k (bits i) st
      procLevels bits vals rest (k + bits i) { st1 with code := st1.code * 2 }

/-- The code lengths walked by the outer loop. -/
def jpegLevels : List Nat := [1, 2, 3, 4, 5, 6, 7, 8, 9, 10, 11, 12, 13, 14, 15, 16]

/-- `ff_mjpeg_build_huffman_codes`: zero `huff_size[0]`, then run the two
nested loops.  `huff_size`/`huff_code` are the caller-provided arrays. -/
def ff_mjpeg_build_huffman_codes (huff_size huff_code : Nat → Nat)
    (bits_table val_table : Nat → Nat) : HuffState :=
  procLevels bits_table val_table jpegLevels 0
    { huff_size := upd huff_size 0 0, huff_code := huff_code, code := 0 }

/-- Variant of `assignSym` that assigns unconditionally — the hypothetical
behaviour had the duplicate-symbol-0 guard been absent (used to state that
a skipped duplicate still consumes its code slot). -/
def assignSymAlways (i sym : Nat) (st : HuffState) : HuffState :=
  { huff_size := upd st.huff_size sym i,
    huff_code := upd st.huff_code sym (st.code % 65536),
    code := st.code + 1 }

/-- Inner loop of the unconditional variant. -/
def procSymsAlways (vals : Nat → Nat) (i k nb : Nat) (st : HuffState) : HuffState :=
  match nb with
  | 0 => st
  | Nat.succ n => procSymsAlways vals i (k + 1) n (assignSymAlways i (vals k) st)

/-- Outer loop of the unconditional variant. -/
def procLevelsAlways (bits vals : Nat → Nat) (levels : List Nat) (k : Nat)
    (st : HuffState) : HuffState :=
  match levels with
  | [] => st
  | i :: rest =>
      let st1 := procSymsAlways vals i k (bits i) st
      procLevelsAlways bits vals rest (k + bits i) { st1 with code := st1.code * 2 }

/-- The unconditional-assignment build, for comparison with the real one. -/
def ff_mjpeg_build_huffman_codes_always (huff_size huff_code : Nat → Nat)
    (bits_table val_table : Nat → Nat) : HuffState :=
  procLevelsAlways bits_table val_table jpegLevels 0
    { huff_size := upd huff_size 0 0, huff_code := huff_code, code := 0 }

/-- Number of symbols of the lengths `1..n`:  `Σ l in [1..n], bits l`. -/
def bitsSum (bits : Nat → Nat) : Nat → Nat
  | 0 => 0
  | Nat.succ n => bitsSum bits n + bits (n + 1)

/-- The canonical first code of length `i` (the value of the running code
counter when the outer loop reaches length `i`): `canonStart 1 = 0` and
`canonStart (i+1) = (canonStart i + bits i) * 2`. -/
def canonStart (bits : Nat → Nat) : Nat → Nat
  | 0 => 0
  | Nat.succ n => if n = 0 then 0 else (canonStart bits n + bits n) * 2

/-- Total number of symbols of a list of code lengths. -/
def bitsSumList (bits : Nat → Nat) (l : List Nat) : Nat := (l.map bits).sum

/-- Evolution of the running code counter across a list of code lengths:
add the symbol count of each length, then shift left. -/
def ctrFoldList (bits : Nat → Nat) (c : Nat) (l : List Nat) : Nat :=
  l.foldl (fun a i => (a + bits i) * 2) c

/-- The `n` consecutive code lengths starting at `s`. -/
def levelsFrom (s : Nat) : Nat → List Nat
  | 0 => []
  | Nat.succ n => s :: levelsFrom (s + 1) n

/-! ### Quantization-table synthesis (`Jfif::create_default_qtables`) -/

/-- Modelled from the spec: `av_clip` (ffmpeg helper used by
`create_default_qtables`, defined outside `src/`): clamp a value to
`[amin, amax]`. -/
def av_clip (a amin amax : Nat) : Nat :=
  if a < amin then amin else if a > amax then amax else a

/-- Modelled from the spec: `default_quantizers` (declared outside `src/`),
"the 128 standard base-quantizer entries (two interleaved 64-entry groups,
luma then chroma)": the JPEG Annex K base luminance and chrominance
quantizers in zig-zag order. -/
def default_quantizers : List Nat :=
  [16, 11, 12, 14, 12, 10, 16, 14,
   13, 14, 18, 17, 16, 19, 24, 40,
   26, 24, 22, 22, 24, 49, 35, 37,
   29, 40, 58, 51, 61, 60, 57, 51,
   56, 55, 64, 72, 92, 78, 64, 68,
   87, 69, 55, 56, 80, 109, 81, 87,
   95, 98, 103, 104, 103, 62, 77, 113,
   121, 112, 100, 120, 92, 101, 103, 99,
   17, 18, 18, 24, 21, 24, 47, 26,
   26, 47, 99, 66, 56, 66, 99, 99,
   99, 99, 99, 99, 99, 99, 99, 99,
   99, 99, 99, 99, 99, 99, 99, 99,
   99, 99, 99, 99, 99, 99, 99, 99,
   99, 99, 99, 99, 99, 99, 99, 99,
   99, 99, 99, 99, 99, 99, 99, 99,
   99, 99, 99, 99, 99, 99, 99, 99]

/-- The scale factor computed by `create_default_qtables`: the branch tests
the *unclamped* `q`, the division uses the clamped `factor` — exactly as in
the source. -/
def qtableScale (q : Nat) : Nat :=
  let factor := av_clip q 1 99
  if q < 50 then 5000 / factor else 200 - factor * 2

/-- `Jfif::create_default_qtables`: the 128 output bytes
`av_clip ((default_quantizers[i] * S + 50) / 100, 1, 255)`. -/
def create_default_qtables (q : Nat) : List Nat :=
  (List.range 128).map
    (fun i => av_clip ((default_quantizers.getD i 0 * qtableScale q + 50) / 100) 1 255)

/-! ### JFIF header construction (`Jfif::jpeg_create_header`) -/

/-- Modelled from the spec: `bytestream2_put_byte` (writer helpers live
outside `src/`); appends one byte, the value converted to `uint8_t`.  The
bounded writer is assumed adequately sized, as the spec's output contract
(sections 4.5 and 6) requires. -/
def put_byte (v : Nat) : List Nat := [v % 256]

/-- Modelled from the spec: `bytestream2_put_be16`, appends a 16-bit value
big-endian. -/
def put_be16 (v : Nat) : List Nat := [v / 256 % 256, v % 256]

/-- `jpeg_put_marker`: `0xff` followed by the marker code. -/
def jpeg_put_marker (code : Nat) : List Nat := put_byte 0xff ++ put_byte code

/-- `jpeg_create_huffman_table`: class/id byte, the 16 bit-length counts
`bits_table[1..16]`, then the `n` symbol values; also returns the byte
count `n + 17` accumulated into `dht_size`. -/
def jpeg_create_huffman_table (table_class table_id : Nat)
    (bits_table value_table : List Nat) : List Nat × Nat :=
  let n := ((List.range 16).map (fun m => bits_table.getD (m + 1) 0)).sum
  (put_byte (table_class <<< 4 ||| table_id)
     ++ (List.range 16).map (fun m => bits_table.getD (m + 1) 0 % 256)
     ++ (List.range n).map (fun m => value_table.getD m 0 % 256),
   n + 17)

/-- `avpriv_mjpeg_bits_dc_luminance` (17 entries, index 0 unused). -/
def avpriv_mjpeg_bits_dc_luminance : List Nat :=
  [0, 0, 1, 5, 1, 1, 1, 1, 1, 1, 0, 0, 0, 0, 0, 0, 0]

/-- `avpriv_mjpeg_val_dc`. -/
def avpriv_mjpeg_val_dc : List Nat :=
  [0, 1, 2, 3, 4, 5, 6, 7, 8, 9, 10, 11]

/-- `avpriv_mjpeg_bits_dc_chrominance`. -/
def avpriv_mjpeg_bits_dc_chrominance : List Nat :=
  [0, 0, 3, 1, 1, 1, 1, 1, 1, 1, 1, 1, 0, 0, 0, 0, 0]

/-- `avpriv_mjpeg_bits_ac_luminance`. -/
def avpriv_mjpeg_bits_ac_luminance : List Nat :=
  [0, 0, 2, 1, 3, 3, 2, 4, 3, 5, 5, 4, 4, 0, 0, 1, 0x7d]

/-- `avpriv_mjpeg_val_ac_luminance` (162 symbol values). -/
def avpriv_mjpeg_val_ac_luminance : List Nat :=
  [0x01, 0x02, 0x03, 0x00, 0x04, 0x11, 0x05, 0x12,
   0x21, 0x31, 0x41, 0x06, 0x13, 0x51, 0x61, 0x07,
   0x22, 0x71, 0x14, 0x32, 0x81, 0x91, 0xa1, 0x08,
   0x23, 0x42, 0xb1, 0xc1, 0x15, 0x52, 0xd1, 0xf0,
   0x24, 0x33, 0x62, 0x72, 0x82, 0x09, 0x0a, 0x16,
   0x17, 0x18, 0x19, 0x1a, 0x25, 0x26, 0x27, 0x28,
   0x29, 0x2a, 0x34, 0x35, 0x36, 0x37, 0x38, 0x39,
   0x3a, 0x43, 0x44, 0x45, 0x46, 0x47, 0x48, 0x49,
   0x4a, 0x53, 0x54, 0x55, 0x56, 0x57, 0x58, 0x59,
   0x5a, 0x63, 0x64, 0x65, 0x66, 0x67, 0x68, 0x69,
   0x6a, 0x73, 0x74, 0x75, 0x76, 0x77, 0x78, 0x79,
   0x7a, 0x83, 0x84, 0x85, 0x86, 0x87, 0x88, 0x89,
   0x8a, 0x92, 0x93, 0x94, 0x95, 0x96, 0x97, 0x98,
   0x99, 0x9a, 0xa2, 0xa3, 0xa4, 0xa5, 0xa6, 0xa7,
   0xa8, 0xa9, 0xaa, 0xb2, 0xb3, 0xb4, 0xb5, 0xb6,
   0xb7, 0xb8, 0xb9, 0xba, 0xc2, 0xc3, 0xc4, 0xc5,
   0xc6, 0xc7, 0xc8, 0xc9, 0xca, 0xd2, 0xd3, 0xd4,
   0xd5, 0xd6, 0xd7, 0xd8, 0xd9, 0xda, 0xe1, 0xe2,
   0xe3, 0xe4, 0xe5, 0xe6, 0xe7, 0xe8, 0xe9, 0xea,
   0xf1, 0xf2, 0xf3, 0xf4, 0xf5, 0xf6, 0xf7, 0xf8,
   0xf9, 0xfa]

/-- `avpriv_mjpeg_bits_ac_chrominance`. -/
def avpriv_mjpeg_bits_ac_chrominance : List Nat :=
  [0, 0, 2, 1, 2, 4, 4, 3, 4, 7, 5, 4, 4, 0, 1, 2, 0x77]

/-- `avpriv_mjpeg_val_ac_chrominance` (162 symbol values). -/
def avpriv_mjpeg_val_ac_chrominance : List Nat :=
  [0x00, 0x01, 0x02, 0x03, 0x11, 0x04, 0x05, 0x21,
   0x31, 0x06, 0x12, 0x41, 0x51, 0x07, 0x61, 0x71,
   0x13, 0x22, 0x32, 0x81, 0x08, 0x14, 0x42, 0x91,
   0xa1, 0xb1, 0xc1, 0x09, 0x23, 0x33, 0x52, 0xf0,
   0x15, 0x62, 0x72, 0xd1, 0x0a, 0x16, 0x24, 0x34,
   0xe1, 0x25, 0xf1, 0x17, 0x18, 0x19, 0x1a, 0x26,
   0x27, 0x28, 0x29, 0x2a, 0x35, 0x36, 0x37, 0x38,
   0x39, 0x3a, 0x43, 0x44, 0x45, 0x46, 0x47, 0x48,
   0x49, 0x4a, 0x53, 0x54, 0x55, 0x56, 0x57, 0x58,
   0x59, 0x5a, 0x63, 0x64, 0x65, 0x66, 0x67, 0x68,
   0x69, 0x6a, 0x73, 0x74, 0x75, 0x76, 0x77, 0x78,
   0x79, 0x7a, 0x82, 0x83, 0x84, 0x85, 0x86, 0x87,
   0x88, 0x89, 0x8a, 0x92, 0x93, 0x94, 0x95, 0x96,
   0x97, 0x98, 0x99, 0x9a, 0xa2, 0xa3, 0xa4, 0xa5,
   0xa6, 0xa7, 0xa8, 0xa9, 0xaa, 0xb2, 0xb3, 0xb4,
   0xb5, 0xb6, 0xb7, 0xb8, 0xb9, 0xba, 0xc2, 0xc3,
   0xc4, 0xc5, 0xc6, 0xc7, 0xc8, 0xc9, 0xca, 0xd2,
   0xd3, 0xd4, 0xd5, 0xd6, 0xd7, 0xd8, 0xd9, 0xda,
   0xe2, 0xe3, 0xe4, 0xe5, 0xe6, 0xe7, 0xe8, 0xe9,
   0xea, 0xf2, 0xf3, 0xf4, 0xf5, 0xf6, 0xf7, 0xf8,
   0xf9, 0xfa]

/-- The SOI marker code. -/
def SOI : Nat := 0xd8
/-- The APP0 marker code. -/
def APP0 : Nat := 0xe0
/-- The DRI marker code. -/
def DRI : Nat := 0xdd
/-- The DQT marker code. -/
def DQT : Nat := 0xdb
/-- The DHT marker code. -/
def DHT : Nat := 0xc4
/-- The SOF0 marker code. -/
def SOF0 : Nat := 0xc0
/-- The SOS marker code. -/
def SOS : Nat := 0xda

/-- The APP0 "JFIF" segment emitted by `jpeg_create_header`: length 16,
identifier `"JFIF\0"`, version word `0x0201`, no density units, density
1×1, no thumbnail. -/
def app0Seg : List Nat :=
  jpeg_put_marker APP0 ++ put_be16 16
    ++ [0x4a, 0x46, 0x49, 0x46, 0x00]
    ++ put_be16 0x0201 ++ put_byte 0 ++ put_be16 1 ++ put_be16 1
    ++ put_byte 0 ++ put_byte 0

/-- The DRI segment (`if (dri)` branch). -/
def driSeg (dri : Nat) : List Nat :=
  jpeg_put_marker DRI ++ put_be16 4 ++ put_be16 dri

/-- The DQT segment: per table, its index byte then its 64 entries taken
from `qtable + 64*i`. -/
def dqtSeg (qtable : Nat → Nat) (nb_qtable : Nat) : List Nat :=
  jpeg_put_marker DQT ++ put_be16 (2 + nb_qtable * (1 + 64))
    ++ (List.range nb_qtable).flatMap
        (fun i => put_byte i ++ (List.range 64).map (fun m => qtable (64 * i + m) % 256))

/-- The DHT segment: the four standard tables; the size written back into
the placeholder (`AV_WB16(dht_size_ptr, dht_size)`) is modelled by
emitting the final accumulated size directly. -/
def dhtSeg : List Nat :=
  let t1 := jpeg_create_huffman_table 0 0 avpriv_mjpeg_bits_dc_luminance avpriv_mjpeg_val_dc
  let t2 := jpeg_create_huffman_table 0 1 avpriv_mjpeg_bits_dc_chrominance avpriv_mjpeg_val_dc
  let t3 := jpeg_create_huffman_table 1 0 avpriv_mjpeg_bits_ac_luminance avpriv_mjpeg_val_ac_luminance
  let t4 := jpeg_create_huffman_table 1 1 avpriv_mjpeg_bits_ac_chrominance avpriv_mjpeg_val_ac_chrominance
  let dht_size := 2 + t1.2 + t2.2 + t3.2 + t4.2
  jpeg_put_marker DHT ++ put_be16 dht_size ++ t1.1 ++ t2.1 ++ t3.1 ++ t4.1

/-- The SOF0 segment, for already-shifted pixel dimensions `w`, `h`. -/
def sof0Seg (type w h nb_qtable : Nat) : List Nat :=
  jpeg_put_marker SOF0 ++ put_be16 17 ++ put_byte 8 ++ put_be16 h ++ put_be16 w
    ++ put_byte 3
    ++ put_byte 1 ++ put_byte ((2 <<< 4) ||| (if type ≠ 0 then 2 else 1)) ++ put_byte 0
    ++ put_byte 2 ++ put_byte (1 <<< 4 ||| 1) ++ put_byte (if nb_qtable = 2 then 1 else 0)
    ++ put_byte 3 ++ put_byte (1 <<< 4 ||| 1) ++ put_byte (if nb_qtable = 2 then 1 else 0)

/-- The fixed SOS segment. -/
def sosSeg : List Nat :=
  jpeg_put_marker SOS ++ put_be16 12 ++ put_byte 3
    ++ put_byte 1 ++ put_byte 0 ++ put_byte 2 ++ put_byte 17 ++ put_byte 3 ++ put_byte 17
    ++ put_byte 0 ++ put_byte 63 ++ put_byte 0

/-- `Jfif::jpeg_create_header`: the emitted byte sequence.  `w` and `h`
arrive in 8-pixel block units as `uint32_t` and are shifted left by 3
(`% 2^32` models the unsigned overflow). -/
def jpeg_create_header (type w h : Nat) (qtable : Nat → Nat) (nb_qtable dri : Nat) :
    List Nat :=
  let w8 := w * 8 % 4294967296
  let h8 := h * 8 % 4294967296
  jpeg_put_marker SOI
    ++ app0Seg
    ++ (if dri ≠ 0 then driSeg dri else [])
    ++ dqtSeg qtable nb_qtable
    ++ dhtSeg
    ++ sof0Seg type w8 h8 nb_qtable
    ++ sosSeg

/-- The JFIF version carried by the APP0 segment of a header built by
`jpeg_create_header`: the (major, minor) bytes that follow the five
identifier bytes `"JFIF\0"` of the APP0 segment starting at offset 2. -/
def jfif_app0_version (out : List Nat) : Nat × Nat :=
  (out.getD 11 0, out.getD 12 0)

/-! ### Theorems -/

/-- The five error messages are pairwise distinct except for the JPEG
base-header and quantization-header truncation errors, which share one
string. -/
theorem err_distinct :
    errTypeSpec ≠ errRestart ∧ errTypeSpec ≠ errJpegTrunc ∧
    errTypeSpec ≠ errQTableTrunc ∧ errRestart ≠ errJpegTrunc ∧
    errRestart ≠ errQTableTrunc ∧ errJpegTrunc ≠ errQTableTrunc := by
  refine ⟨?_, ?_, ?_, ?_, ?_, ?_⟩ <;> decide

/-- C6: with at least 8 bytes available from the offset,
`JpegRtpHeader.Deserialise` fails with `UnsupportedTypeSpecifier` whenever
byte 0 is non-zero; otherwise it fails with `UnsupportedRestartMarkers`
whenever the type byte lies in `[64, 127]`; and when byte 0 is zero and
the type byte is outside `[64, 127]`, neither of those two errors is
raised. -/
theorem C6_validation_errors (buffer : List Nat) (startPosn : Nat)
    (hlen : startPosn + 8 ≤ buffer.length) :
    (buffer.getD startPosn 0 ≠ 0 →
        JpegRtpHeader.parse buffer startPosn = Except.error errTypeSpec)
    ∧ (buffer.getD startPosn 0 = 0 →
        64 ≤ buffer.getD (startPosn + 4) 0 → buffer.getD (startPosn + 4) 0 ≤ 127 →
        JpegRtpHeader.parse buffer startPosn = Except.error errRestart)
    ∧ (buffer.getD startPosn 0 = 0 →
        (buffer.getD (startPosn + 4) 0 < 64 ∨ 127 < buffer.getD (startPosn + 4) 0) →
        JpegRtpHeader.parse buffer startPosn ≠ Except.error errTypeSpec
        ∧ JpegRtpHeader.parse buffer startPosn ≠ Except.error errRestart) := by
  have h8 : ¬ (buffer.length - startPosn < 8) := by omega
  refine ⟨?_, ?_, ?_⟩
  · intro hts
    simp only [JpegRtpHeader.parse, JpegRtpHeader.Deserialise, if_neg h8, if_pos hts]
  · intro hts h64 h127
    simp only [JpegRtpHeader.parse, JpegRtpHeader.Deserialise, if_neg h8, hts]
    simp only [ne_eq, not_true_eq_false, reduceIte, if_pos (And.intro h64 h127)]
  · intro hts hout
    have hrm : ¬ (64 ≤ buffer.getD (startPosn + 4) 0 ∧
        buffer.getD (startPosn + 4) 0 ≤ 127) := by omega
    simp only [JpegRtpHeader.parse, JpegRtpHeader.Deserialise, if_neg h8, hts]
    simp only [ne_eq, not_true_eq_false, reduceIte, if_neg hrm]
    split_ifs <;>
      refine ⟨?_, ?_⟩ <;>
      simp [errJpegTrunc, errQTableTrunc, errTypeSpec, errRestart]

/-- C5: past the validation checks, the quantization extension is parsed
if and only if the 24-bit fragment offset is 0 and `Q ≥ 128`: otherwise
the parse succeeds immediately with the extension fields at their defaults
and an empty `QTable`, no matter what trailing bytes exist; and whenever
the extension condition holds, any successful parse took `Mbz`,
`Precision`, `Length` and the `Length`-byte table from the bytes following
the 8-byte base header. -/
theorem C5_quant_extension_iff (buffer : List Nat) (startPosn : Nat)
    (hlen : startPosn + 8 ≤ buffer.length)
    (hts : buffer.getD startPosn 0 = 0)
    (hrm : ¬ (64 ≤ buffer.getD (startPosn + 4) 0 ∧ buffer.getD (startPosn + 4) 0 ≤ 127)) :
    (¬ (read_24 buffer (startPosn + 1) = 0 ∧ 128 ≤ buffer.getD (startPosn + 5) 0) →
        JpegRtpHeader.parse buffer startPosn = Except.ok
          { TypeSpecifier := 0, Offset := read_24 buffer (startPosn + 1),
            TypeByte := buffer.getD (startPosn + 4) 0, Q := buffer.getD (startPosn + 5) 0,
            Width := buffer.getD (startPosn + 6) 0, Height := buffer.getD (startPosn + 7) 0,
            Mbz := 0, Precision := 0, Length := 0, QTable := [] })
    ∧ (read_24 buffer (startPosn + 1) = 0 → 128 ≤ buffer.getD (startPosn + 5) 0 →
        ∀ h', JpegRtpHeader.parse buffer startPosn = Except.ok h' →
          h'.Mbz = buffer.getD (startPosn + 8) 0 ∧
          h'.Precision = buffer.getD (startPosn + 9) 0 ∧
          h'.Length = read_16 buffer (startPosn + 10) ∧
          h'.QTable = (buffer.drop (startPosn + 12)).take (read_16 buffer (startPosn + 10))) := by
  have h8 : ¬ (buffer.length - startPosn < 8) := by omega
  constructor
  · intro hq
    simp only [JpegRtpHeader.parse, JpegRtpHeader.Deserialise, if_neg h8, hts,
      JpegRtpHeader.init, ne_eq, not_true_eq_false, reduceIte, if_neg hrm, if_neg hq]
  · intro hoff hq h' heq
    have hcond : read_24 buffer (startPosn + 1) = 0 ∧
        128 ≤ buffer.getD (startPosn + 5) 0 := ⟨hoff, hq⟩
    simp only [JpegRtpHeader.parse, JpegRtpHeader.Deserialise, if_neg h8, hts,
      JpegRtpHeader.init, ne_eq, not_true_eq_false, reduceIte, if_pos hcond] at heq
    split_ifs at heq with h4 hpos htr
    all_goals
      first
        | exact Except.noConfusion heq
        | (injection heq with heq
           subst heq
           refine ⟨rfl, rfl, rfl, ?_⟩
           first
             | exact List.nil_append _
             | (have hL : read_16 buffer (startPosn + 10) = 0 := by omega
                simp [hL]))

/-- Witness for C5: a buffer with nonzero fragment offset and trailing
bytes parses with no extension stored. -/
theorem C5_quant_extension_iff_witness :
    JpegRtpHeader.parse [0, 0, 0, 1, 0, 255, 4, 3, 9, 9, 9, 9, 9] 0 = Except.ok
      { TypeSpecifier := 0, Offset := 1, TypeByte := 0, Q := 255, Width := 4,
        Height := 3, Mbz := 0, Precision := 0, Length := 0, QTable := [] } := by
  have h := (C5_quant_extension_iff [0, 0, 0, 1, 0, 255, 4, 3, 9, 9, 9, 9, 9] 0
    (by decide) (by decide) (by decide)).1 (by decide)
  simpa [read_24] using h

/-- C7 counterexample: a 10-byte buffer with offset 0 and `Q = 128` fails
the 4-byte quantization-extension-header check, but the error raised is
byte-for-byte the same `runtime_error` message as the base-header
`TruncatedBuffer` failure (shown on the empty buffer) — there is no
distinct `TruncatedQuantizationHeader` error kind in the code. -/
theorem C7_quant_errors_cex :
    JpegRtpHeader.parse [0, 0, 0, 0, 0, 128, 1, 1, 0, 0] 0 = Except.error errJpegTrunc
    ∧ JpegRtpHeader.parse [] 0 = Except.error errJpegTrunc := by
  constructor <;> rfl

/-- C7 amended: when offset is 0 and `Q ≥ 128`, the parse fails — with the
*same* error message as a truncated base header, not a distinct kind — if
fewer than 4 bytes remain after the 8-byte base header; it fails with the
distinct `TruncatedQuantizationTable` error if fewer than `Length` bytes
remain after the 4-byte extension header; and otherwise it succeeds and
copies exactly `Length` bytes into `QTable`. -/
theorem C7_quant_errors (buffer : List Nat) (startPosn : Nat)
    (hlen : startPosn + 8 ≤ buffer.length)
    (hts : buffer.getD startPosn 0 = 0)
    (hrm : ¬ (64 ≤ buffer.getD (startPosn + 4) 0 ∧ buffer.getD (startPosn + 4) 0 ≤ 127))
    (hoff : read_24 buffer (startPosn + 1) = 0)
    (hq : 128 ≤ buffer.getD (startPosn + 5) 0) :
    (buffer.length - startPosn - 8 < 4 →
        JpegRtpHeader.parse buffer startPosn = Except.error errJpegTrunc)
    ∧ (4 ≤ buffer.length - startPosn - 8 →
        (buffer.length - startPosn - 12 < read_16 buffer (startPosn + 10) →
            JpegRtpHeader.parse buffer startPosn = Except.error errQTableTrunc)
        ∧ (read_16 buffer (startPosn + 10) ≤ buffer.length - startPosn - 12 →
            ∃ h', JpegRtpHeader.parse buffer startPosn = Except.ok h'
              ∧ h'.QTable =
                  (buffer.drop (startPosn + 12)).take (read_16 buffer (startPosn + 10))
              ∧ h'.QTable.length = read_16 buffer (startPosn + 10)))
    ∧ errQTableTrunc ≠ errJpegTrunc ∧ errQTableTrunc ≠ errRtpTrunc := by
  have h8 : ¬ (buffer.length - startPosn < 8) := by omega
  have hcond : read_24 buffer (startPosn + 1) = 0 ∧
      128 ≤ buffer.getD (startPosn + 5) 0 := ⟨hoff, hq⟩
  refine ⟨?_, ?_, by decide, by decide⟩
  · intro h4
    simp only [JpegRtpHeader.parse, JpegRtpHeader.Deserialise, if_neg h8, hts,
      JpegRtpHeader.init, ne_eq, not_true_eq_false, reduceIte, if_neg hrm, if_pos hcond,
      if_pos h4]
  · intro h4
    have h4' : ¬ (buffer.length - startPosn - 8 < 4) := by omega
    constructor
    · intro htr
      have hpos : 0 < read_16 buffer (startPosn + 10) := by omega
      have htr' : buffer.length - startPosn - 8 - 4 < read_16 buffer (startPosn + 10) := by
        omega
      simp only [JpegRtpHeader.parse, JpegRtpHeader.Deserialise, if_neg h8, hts,
        JpegRtpHeader.init, ne_eq, not_true_eq_false, reduceIte, if_neg hrm, if_pos hcond,
        if_neg h4', if_pos hpos, if_pos htr']
    · intro hfit
      have hfit' : ¬ (buffer.length - startPosn - 8 - 4 < read_16 buffer (startPosn + 10)) := by
        omega
      have hdroplen : (buffer.drop (startPosn + 12)).length = buffer.length - (startPosn + 12) :=
        List.length_drop _ _
      by_cases hpos : 0 < read_16 buffer (startPosn + 10)
      · have heq : JpegRtpHeader.parse buffer startPosn = Except.ok
            { TypeSpecifier := 0, Offset := read_24 buffer (startPosn + 1),
              TypeByte := buffer.getD (startPosn + 4) 0, Q := buffer.getD (startPosn + 5) 0,
              Width := buffer.getD (startPosn + 6) 0, Height := buffer.getD (startPosn + 7) 0,
              Mbz := buffer.getD (startPosn + 8) 0, Precision := buffer.getD (startPosn + 9) 0,
              Length := read_16 buffer (startPosn + 10),
              QTable := [] ++ (buffer.drop (startPosn + 12)).take (read_16 buffer (startPosn + 10)) } := by
          simp only [JpegRtpHeader.parse, JpegRtpHeader.Deserialise, if_neg h8, hts,
            JpegRtpHeader.init, ne_eq, not_true_eq_false, reduceIte, if_neg hrm, if_pos hcond,
            if_neg h4', if_pos hpos, if_neg hfit']
        refine ⟨_, heq, by simp, ?_⟩
        simp only [List.nil_append, List.length_take, hdroplen]
        omega
      · have hL : read_16 buffer (startPosn + 10) = 0 := by omega
        have heq : JpegRtpHeader.parse buffer startPosn = Except.ok
            { TypeSpecifier := 0, Offset := read_24 buffer (startPosn + 1),
              TypeByte := buffer.getD (startPosn + 4) 0, Q := buffer.getD (startPosn + 5) 0,
              Width := buffer.getD (startPosn + 6) 0, Height := buffer.getD (startPosn + 7) 0,
              Mbz := buffer.getD (startPosn + 8) 0, Precision := buffer.getD (startPosn + 9) 0,
              Length := read_16 buffer (startPosn + 10), QTable := [] } := by
          simp only [JpegRtpHeader.parse, JpegRtpHeader.Deserialise, if_neg h8, hts,
            JpegRtpHeader.init, ne_eq, not_true_eq_false, reduceIte, if_neg hrm, if_pos hcond,
            if_neg h4', if_neg hpos]
        exact ⟨_, heq, by simp [hL], by simp [hL]⟩

/-- Witness for C7 (amended) on a buffer carrying a 2-byte table. -/
theorem C7_quant_errors_witness :
    ∃ h', JpegRtpHeader.parse [0, 0, 0, 0, 0, 128, 1, 1, 0, 0, 0, 2, 5, 6] 0 = Except.ok h'
      ∧ h'.QTable = [5, 6] ∧ h'.QTable.length = 2 := by
  have h := ((C7_quant_errors [0, 0, 0, 0, 0, 128, 1, 1, 0, 0, 0, 2, 5, 6] 0
    (by decide) (by decide) (by decide) (by decide) (by decide)).2.1
      (by decide)).2 (by decide)
  simpa [read_16] using h

/-- C9 counterexample: `JpegRtpHeader::Deserialise` is not atomic on
failure.  On an 8-byte buffer whose type-specific byte is 1 it raises the
`UnsupportedTypeSpecifier` error, yet the object's state after the call
differs from its state before (the base-header fields were assigned before
the validation threw). -/
theorem C9_atomicity_cex :
    (JpegRtpHeader.Deserialise JpegRtpHeader.init [1, 0, 0, 0, 0, 0, 0, 0] 0).2
        = some errTypeSpec
    ∧ (JpegRtpHeader.Deserialise JpegRtpHeader.init [1, 0, 0, 0, 0, 0, 0, 0] 0).1
        ≠ JpegRtpHeader.init := by
  exact ⟨rfl, by decide⟩

/-- C9 amended: `RtpHeader::Deserialise` leaves the object unchanged on
every failure, and `JpegRtpHeader::Deserialise` leaves it unchanged only
when the base header itself is too short; on any later failure the object
already holds the six base fields parsed from the buffer (partial
output). -/
theorem C9_atomicity (h : RtpHeader) (hj : JpegRtpHeader) (buffer : List Nat)
    (startPosn : Nat) :
    (∀ e, (RtpHeader.Deserialise h buffer startPosn).2 = some e →
        (RtpHeader.Deserialise h buffer startPosn).1 = h)
    ∧ (buffer.length - startPosn < 8 →
        JpegRtpHeader.Deserialise hj buffer startPosn = (hj, some errJpegTrunc))
    ∧ (¬ buffer.length - startPosn < 8 →
        ∀ e, (JpegRtpHeader.Deserialise hj buffer startPosn).2 = some e →
          (JpegRtpHeader.Deserialise hj buffer startPosn).1.TypeSpecifier
              = buffer.getD startPosn 0
          ∧ (JpegRtpHeader.Deserialise hj buffer startPosn).1.Offset
              = read_24 buffer (startPosn + 1)
          ∧ (JpegRtpHeader.Deserialise hj buffer startPosn).1.TypeByte
              = buffer.getD (startPosn + 4) 0
          ∧ (JpegRtpHeader.Deserialise hj buffer startPosn).1.Q
              = buffer.getD (startPosn + 5) 0
          ∧ (JpegRtpHeader.Deserialise hj buffer startPosn).1.Width
              = buffer.getD (startPosn + 6) 0
          ∧ (JpegRtpHeader.Deserialise hj buffer startPosn).1.Height
              = buffer.getD (startPosn + 7) 0) := by
  refine ⟨?_, ?_, ?_⟩
  · intro e he
    by_cases h12 : buffer.length - startPosn < 12
    · simp [RtpHeader.Deserialise, h12]
    · simp [RtpHeader.Deserialise, h12] at he
  · intro h8
    simp [JpegRtpHeader.Deserialise, h8]
  · intro h8 e he
    simp only [JpegRtpHeader.Deserialise, if_neg h8]
    split_ifs <;> simp

/-- Witness for C9 (amended): the three parts applied at concrete
buffers. -/
theorem C9_atomicity_witness :
    (RtpHeader.Deserialise RtpHeader.init [] 0).1 = RtpHeader.init
    ∧ JpegRtpHeader.Deserialise JpegRtpHeader.init [1, 2] 0
        = (JpegRtpHeader.init, some errJpegTrunc)
    ∧ (JpegRtpHeader.Deserialise JpegRtpHeader.init [1, 0, 0, 0, 0, 0, 0, 0] 0).1.TypeSpecifier
        = 1 :=
  ⟨(C9_atomicity RtpHeader.init JpegRtpHeader.init [] 0).1 errRtpTrunc rfl,
   (C9_atomicity RtpHeader.init JpegRtpHeader.init [1, 2] 0).2.1 (by decide),
   by
     have := ((C9_atomicity RtpHeader.init JpegRtpHeader.init
       [1, 0, 0, 0, 0, 0, 0, 0] 0).2.2 (by decide) errTypeSpec rfl).1
     simpa using this⟩

/-- C4 counterexample: `RtpHeader::Serialise` does not force the version
bits of the first byte to 2 — on a header whose `Version` field is 1 it
writes version 1. -/
theorem C4_roundtrip_cex :
    (RtpHeader.Serialise
        { Version := 1, PaddingFlag := 0, HeaderExtensionFlag := 0, CSRCCount := 0,
          MarkerBit := 0, PayloadType := 0, SeqNum := 0, Timestamp := 0,
          SyncSource := 0 }).getD 0 0 >>> 6 &&& 0x03 ≠ 2 := by
  decide

/-- Bit-exact recovery of the four first-byte fields (exhaustive check of
all in-width values). -/
theorem rtp_byte0_bits : ∀ v, v < 4 → ∀ p, p < 2 → ∀ x, x < 2 → ∀ c, c < 16 →
    ((((v <<< 6 &&& 0xc0) ||| (p <<< 5 &&& 0x20) ||| (x <<< 4 &&& 0x10) |||
        (c &&& 0x0f)) % 256) >>> 6 &&& 0x03 = v)
    ∧ ((((v <<< 6 &&& 0xc0) ||| (p <<< 5 &&& 0x20) ||| (x <<< 4 &&& 0x10) |||
        (c &&& 0x0f)) % 256) >>> 5 &&& 0x01 = p)
    ∧ ((((v <<< 6 &&& 0xc0) ||| (p <<< 5 &&& 0x20) ||| (x <<< 4 &&& 0x10) |||
        (c &&& 0x0f)) % 256) >>> 4 &&& 0x01 = x)
    ∧ ((((v <<< 6 &&& 0xc0) ||| (p <<< 5 &&& 0x20) ||| (x <<< 4 &&& 0x10) |||
        (c &&& 0x0f)) % 256) &&& 0x0f = c) := by
  decide

/-- Bit-exact recovery of the two second-byte fields. -/
theorem rtp_byte1_bits : ∀ m, m < 2 → ∀ pt, pt < 128 →
    ((((m <<< 7 &&& 0x80) ||| (pt &&& 0x7f)) % 256) >>> 7 &&& 0x01 = m)
    ∧ ((((m <<< 7 &&& 0x80) ||| (pt &&& 0x7f)) % 256) &&& 0x7f = pt) := by
  decide

/-- C4 amended: for any header whose fields are within their declared bit
widths, `parse (serialize h)` reproduces `h` exactly — including its
version field: `Serialise` writes the header's own 2-bit `Version` into
the first byte rather than forcing 2. -/
theorem C4_roundtrip (h : RtpHeader)
    (hv : h.Version < 4) (hp : h.PaddingFlag < 2) (hx : h.HeaderExtensionFlag < 2)
    (hc : h.CSRCCount < 16) (hm : h.MarkerBit < 2) (hpt : h.PayloadType < 128)
    (hs : h.SeqNum < 65536) (ht : h.Timestamp < 4294967296)
    (hss : h.SyncSource < 4294967296) :
    RtpHeader.parse (RtpHeader.Serialise h) 0 = Except.ok h
    ∧ (RtpHeader.Serialise h).getD 0 0 >>> 6 &&& 0x03 = h.Version := by
  obtain ⟨V, P, X, CC, M, PT, S, T, SS⟩ := h
  dsimp only at hv hp hx hc hm hpt hs ht hss
  obtain ⟨hb0v, hb0p, hb0x, hb0c⟩ := rtp_byte0_bits V hv P hp X hx CC hc
  obtain ⟨hb1m, hb1pt⟩ := rtp_byte1_bits M hm PT hpt
  constructor
  · simp only [RtpHeader.parse, RtpHeader.Deserialise, RtpHeader.Serialise,
      write_16, write_32, read_16, read_32, List.length_append, List.length_cons,
      List.length_nil, List.getD_cons_zero, List.getD_cons_succ, List.cons_append,
      List.nil_append]
    have h12 : ¬ (0 + 1 + 1 + 1 + 1 + 1 + 1 + 1 + 1 + 1 + 1 + 1 + 1 - 0 < 12) := by
      norm_num
    rw [if_neg h12]
    show Except.ok _ = _
    simp only [Except.ok.injEq, RtpHeader.mk.injEq]
    refine ⟨hb0v, hb0p, hb0x, hb0c, hb1m, hb1pt, by omega, by omega, by omega⟩
  · simpa only [RtpHeader.Serialise, List.getD_cons_zero] using hb0v

/-- Witness for C4 (amended) at a concrete in-width header. -/
theorem C4_roundtrip_witness :
    RtpHeader.parse (RtpHeader.Serialise
      { Version := 1, PaddingFlag := 1, HeaderExtensionFlag := 0, CSRCCount := 3,
        MarkerBit := 1, PayloadType := 96, SeqNum := 258, Timestamp := 70000,
        SyncSource := 5 }) 0 = Except.ok
      { Version := 1, PaddingFlag := 1, HeaderExtensionFlag := 0, CSRCCount := 3,
        MarkerBit := 1, PayloadType := 96, SeqNum := 258, Timestamp := 70000,
        SyncSource := 5 } :=
  (C4_roundtrip _ (by decide) (by decide) (by decide) (by decide) (by decide)
    (by decide) (by decide) (by decide) (by decide)).1

/-- Witness for C6 at a concrete 8-byte buffer with a restart-marker type
byte. -/
theorem C6_validation_errors_witness :
    JpegRtpHeader.parse [0, 0, 0, 0, 70, 0, 0, 0] 0 = Except.error errRestart :=
  (C6_validation_errors [0, 0, 0, 0, 70, 0, 0, 0] 0 (by decide)).2.1
    (by decide) (by decide) (by decide)

/-- Clamping lands inside the requested interval. -/
theorem av_clip_mem (x lo hi : Nat) (h : lo ≤ hi) :
    lo ≤ av_clip x lo hi ∧ av_clip x lo hi ≤ hi := by
  unfold av_clip
  split_ifs <;> omega

/-- Indexing a mapped range. -/
theorem getD_map_range (f : Nat → Nat) (n i : Nat) (h : i < n) :
    ((List.range n).map f).getD i 0 = f i := by
  rw [List.getD_eq_getElem?_getD, List.getElem?_map, List.getElem?_range h]
  rfl

/-- C1: for every quality `q`, the synthesized table has 128 entries; each
entry `i` equals `(base_i * S + 50) / 100` (integer truncation) clamped to
`[1, 255]`, where `S = 5000 / quality` for clamped quality below 50 and
`S = 200 - 2 * quality` otherwise (quality being `q` clamped to
`[1, 99]`); every entry lies in `[1, 255]`; and quality 50 gives `S = 100`
while quality 1 gives `S = 5000`. -/
theorem C1_qtable_synthesis :
    (∀ q : Nat,
      (create_default_qtables q).length = 128
      ∧ (∀ i, i < 128 →
          (create_default_qtables q).getD i 0 =
            av_clip ((default_quantizers.getD i 0 *
              (if av_clip q 1 99 < 50 then 5000 / av_clip q 1 99
               else 200 - 2 * av_clip q 1 99) + 50) / 100) 1 255)
      ∧ (∀ i, i < 128 → 1 ≤ (create_default_qtables q).getD i 0
          ∧ (create_default_qtables q).getD i 0 ≤ 255))
    ∧ qtableScale 50 = 100 ∧ qtableScale 1 = 5000 := by
  refine ⟨?_, by decide, by decide⟩
  intro q
  have hS : qtableScale q =
      (if av_clip q 1 99 < 50 then 5000 / av_clip q 1 99
       else 200 - 2 * av_clip q 1 99) := by
    simp only [qtableScale, av_clip]
    split_ifs <;> first | rfl | omega
  refine ⟨by simp [create_default_qtables], ?_, ?_⟩
  · intro i hi
    rw [create_default_qtables, getD_map_range _ _ _ hi, hS]
  · intro i hi
    rw [create_default_qtables, getD_map_range _ _ _ hi]
    exact av_clip_mem _ 1 255 (by omega)

/-- Witness for C1 at quality 50, entry 0. -/
theorem C1_qtable_synthesis_witness :
    (create_default_qtables 50).length = 128
    ∧ (create_default_qtables 50).getD 0 0 =
        av_clip ((default_quantizers.getD 0 0 *
          (if av_clip 50 1 99 < 50 then 5000 / av_clip 50 1 99
           else 200 - 2 * av_clip 50 1 99) + 50) / 100) 1 255
    ∧ 1 ≤ (create_default_qtables 50).getD 0 0
    ∧ (create_default_qtables 50).getD 0 0 ≤ 255 := by
  obtain ⟨h1, h2, h3⟩ := C1_qtable_synthesis.1 50
  exact ⟨h1, h2 0 (by decide), (h3 0 (by decide)).1, (h3 0 (by decide)).2⟩

/-- The header bytes decompose as SOI followed by the successive
segments. -/
theorem jpeg_create_header_decomp (type w h : Nat) (qtable : Nat → Nat)
    (nb_qtable dri : Nat) :
    jpeg_create_header type w h qtable nb_qtable dri =
      [0xff, 0xd8] ++ (app0Seg ++ ((if dri ≠ 0 then driSeg dri else []) ++
        (dqtSeg qtable nb_qtable ++ (dhtSeg ++
          (sof0Seg type (w * 8 % 4294967296) (h * 8 % 4294967296) nb_qtable
            ++ sosSeg))))) := by
  simp [jpeg_create_header, jpeg_put_marker, put_byte, SOI, List.append_assoc]

/-- C8 counterexample: the APP0 segment written by `jpeg_create_header`
does not carry JFIF version 1.2 — its version bytes are 0x02 0x01, i.e.
major 2, minor 1. -/
theorem C8_app0_cex :
    jfif_app0_version (jpeg_create_header 0 0 0 (fun _ => 0) 1 0) = (2, 1)
    ∧ jfif_app0_version (jpeg_create_header 0 0 0 (fun _ => 0) 1 0) ≠ (1, 2) := by
  constructor
  · rfl
  · decide

/-- C8 amended: for every input, the APP0 segment is a JFIF segment with
length field 16 (16-byte payload), identifier `"JFIF\0"`, version bytes
0x02 0x01 (version 2.1 as written, not 1.2), densities 1×1 with no units,
and no thumbnail. -/
theorem C8_app0 (type w h : Nat) (qtable : Nat → Nat) (nb_qtable dri : Nat) :
    ((jpeg_create_header type w h qtable nb_qtable dri).drop 2).take 18 =
      [0xff, 0xe0, 0x00, 0x10, 0x4a, 0x46, 0x49, 0x46, 0x00,
       0x02, 0x01, 0x00, 0x00, 0x01, 0x00, 0x01, 0x00, 0x00] := by
  rw [jpeg_create_header_decomp]
  rw [show (2 : Nat) = ([0xff, 0xd8] : List Nat).length from rfl, List.drop_left]
  rw [show (18 : Nat) = app0Seg.length from rfl, List.take_left]
  rfl

set_option maxRecDepth 10000

/-- C3 counterexample: the claim fails at `width_blocks = 8192`: the SOF0
width field of the emitted header (bytes 7–8 of the SOF0 segment, which
here starts at offset 509) reads 0, not `8192 * 8 = 65536` — the 16-bit
field wraps. -/
theorem C3_sof0_cex :
    ((jpeg_create_header 0 8192 1 (fun _ => 0) 1 0).drop 509).take 19 =
      [0xff, 0xc0, 0x00, 17, 8, 0, 8, 0, 0, 3, 1, 0x21, 0, 2, 17, 0, 3, 17, 0]
    ∧ (jpeg_create_header 0 8192 1 (fun _ => 0) 1 0).getD (509 + 7) 0 * 256 +
        (jpeg_create_header 0 8192 1 (fun _ => 0) 1 0).getD (509 + 8) 0 = 0
    ∧ 8192 * 8 ≠ 0 := by
  refine ⟨?_, ?_, by decide⟩ <;> rfl

/-- C3 amended: every emitted header starts with the SOI bytes `FF D8`,
and its SOF0 segment encodes 8-bit precision, 3 components, the height
and width fields holding `height_blocks * 8` and `width_blocks * 8`
reduced modulo 2^16 (equal to the pixel sizes whenever they fit 16 bits,
e.g. 80 blocks ↦ 640), component Y with sampling factors
`(2<<4)|(type≠0 ? 2 : 1)` and quantization-table index 0, and components
Cb and Cr with sampling factors `(1<<4)|1` and quantization-table index 1
exactly when two tables are supplied, else 0. -/
theorem C3_sof0 (type w h : Nat) (qtable : Nat → Nat) (nb_qtable dri : Nat) :
    (jpeg_create_header type w h qtable nb_qtable dri).take 2 = [0xff, 0xd8]
    ∧ ∃ pre rest, jpeg_create_header type w h qtable nb_qtable dri =
        pre ++
        ([0xff, 0xc0, 0x00, 17, 8,
          h * 8 / 256 % 256, h * 8 % 256,
          w * 8 / 256 % 256, w * 8 % 256,
          3,
          1, (2 <<< 4) ||| (if type ≠ 0 then 2 else 1), 0,
          2, 17, if nb_qtable = 2 then 1 else 0,
          3, 17, if nb_qtable = 2 then 1 else 0] ++ rest) := by
  constructor
  · rw [jpeg_create_header_decomp]
    rw [show (2 : Nat) = ([0xff, 0xd8] : List Nat).length from rfl, List.take_left]
  · refine ⟨[0xff, 0xd8] ++ app0Seg ++ (if dri ≠ 0 then driSeg dri else []) ++
        dqtSeg qtable nb_qtable ++ dhtSeg, sosSeg, ?_⟩
    have h1 : ∀ a : Nat, a % 4294967296 / 256 % 256 = a / 256 % 256 := fun a => by
      omega
    have h2 : ∀ a : Nat, a % 4294967296 % 256 = a % 256 := fun a => by omega
    have hsof : sof0Seg type (w * 8 % 4294967296) (h * 8 % 4294967296) nb_qtable =
        [0xff, 0xc0, 0x00, 17, 8,
         h * 8 / 256 % 256, h * 8 % 256,
         w * 8 / 256 % 256, w * 8 % 256,
         3,
         1, (2 <<< 4) ||| (if type ≠ 0 then 2 else 1), 0,
         2, 17, if nb_qtable = 2 then 1 else 0,
         3, 17, if nb_qtable = 2 then 1 else 0] := by
      by_cases ht : type = 0 <;> by_cases hn : nb_qtable = 2 <;>
        simp [sof0Seg, jpeg_put_marker, put_byte, put_be16, SOF0, h1, h2, ht, hn]
    rw [jpeg_create_header_decomp, hsof]
    simp [List.append_assoc]

/-! ### Huffman lemmas -/

/-- `assignSym` always advances the code counter, assigned or skipped. -/
theorem assignSym_code (i sym : Nat) (st : HuffState) :
    (assignSym i sym st).code = st.code + 1 := by
  unfold assignSym
  split_ifs <;> rfl

/-- `assignSym` does not touch entries other than the processed symbol. -/
theorem assignSym_other (i sym t : Nat) (st : HuffState) (h : t ≠ sym) :
    (assignSym i sym st).huff_size t = st.huff_size t
    ∧ (assignSym i sym st).huff_code t = st.huff_code t := by
  unfold assignSym upd
  split_ifs <;> simp [h]

/-- The unconditional variant does not touch other entries either. -/
theorem assignSymAlways_other (i sym t : Nat) (st : HuffState) (h : t ≠ sym) :
    (assignSymAlways i sym st).huff_size t = st.huff_size t
    ∧ (assignSymAlways i sym st).huff_code t = st.huff_code t := by
  unfold assignSymAlways upd
  simp [h]

/-- The inner loop advances the code counter by the number of symbols. -/
theorem procSyms_code (vals : Nat → Nat) (i : Nat) :
    ∀ nb k st, (procSyms vals i k nb st).code = st.code + nb := by
  intro nb
  induction nb with
  | zero => intro k st; rfl
  | succ n ih =>
      intro k st
      show (procSyms vals i (k + 1) n (assignSym i (vals k) st)).code = st.code + (n + 1)
      rw [ih, assignSym_code]
      omega

/-- A symbol value not occurring among the processed symbols keeps its
entry through the inner loop. -/
theorem procSyms_not_occurs (vals : Nat → Nat) (i t : Nat) :
    ∀ nb k st, (∀ m, m < nb → vals (k + m) ≠ t) →
      (procSyms vals i k nb st).huff_size t = st.huff_size t
      ∧ (procSyms vals i k nb st).huff_code t = st.huff_code t := by
  intro nb
  induction nb with
  | zero => intro k st _; exact ⟨rfl, rfl⟩
  | succ n ih =>
      intro k st hno
      have h0 : vals k ≠ t := by
        have := hno 0 (Nat.succ_pos n)
        simpa using this
      have hrest : ∀ m, m < n → vals (k + 1 + m) ≠ t := by
        intro m hm
        have hidx : k + 1 + m = k + (m + 1) := by omega
        rw [hidx]
        exact hno (m + 1) (by omega)
      have hoth := assignSym_other i (vals k) t st (Ne.symm h0)
      have hih := ih (k + 1) (assignSym i (vals k) st) hrest
      constructor
      · show (procSyms vals i (k + 1) n (assignSym i (vals k) st)).huff_size t = _
        rw [hih.1, hoth.1]
      · show (procSyms vals i (k + 1) n (assignSym i (vals k) st)).huff_code t = _
        rw [hih.2, hoth.2]

/-- Once `huff_size[0]` is set non-zero, entry 0 is frozen for the rest of
the inner loop: a repeated symbol 0 is skipped (the quirk), and other
symbols write elsewhere. -/
theorem procSyms_zero_frozen (vals : Nat → Nat) (i : Nat) :
    ∀ nb k st, st.huff_size 0 ≠ 0 →
      (procSyms vals i k nb st).huff_size 0 = st.huff_size 0
      ∧ (procSyms vals i k nb st).huff_code 0 = st.huff_code 0 := by
  intro nb
  induction nb with
  | zero => intro k st _; exact ⟨rfl, rfl⟩
  | succ n ih =>
      intro k st h
      by_cases h0 : vals k = 0
      · have hcond : ¬ (vals k ≠ 0 ∨ st.huff_size (vals k) = 0) := by
          simpa [h0] using h
        have hskip : assignSym i (vals k) st = { st with code := st.code + 1 } := by
          unfold assignSym
          rw [if_neg hcond]
        have hih := ih (k + 1) (assignSym i (vals k) st)
          (by rw [hskip]; exact h)
        constructor
        · show (procSyms vals i (k + 1) n (assignSym i (vals k) st)).huff_size 0 = _
          rw [hskip] at hih ⊢
          rw [hih.1]
        · show (procSyms vals i (k + 1) n (assignSym i (vals k) st)).huff_code 0 = _
          rw [hskip] at hih ⊢
          rw [hih.2]
      · have hoth := assignSym_other i (vals k) 0 st (Ne.symm h0)
        have hih := ih (k + 1) (assignSym i (vals k) st) (by rw [hoth.1]; exact h)
        constructor
        · show (procSyms vals i (k + 1) n (assignSym i (vals k) st)).huff_size 0 = _
          rw [hih.1, hoth.1]
        · show (procSyms vals i (k + 1) n (assignSym i (vals k) st)).huff_code 0 = _
          rw [hih.2, hoth.2]

/-- The `j`-th symbol processed by the inner loop at length `i` ends the
loop with size `i` and code `(st.code + j) % 65536` (the `uint16_t`
store), provided either it is non-zero
and does not recur later in the loop, or it is the first symbol 0 seen and
`huff_size[0]` is still clear. -/
theorem procSyms_assign (vals : Nat → Nat) (i : Nat) (hi : 1 ≤ i) :
    ∀ nb j k st, j < nb →
      ((vals (k + j) ≠ 0 ∧ ∀ m, j < m → m < nb → vals (k + m) ≠ vals (k + j))
        ∨ (vals (k + j) = 0 ∧ st.huff_size 0 = 0 ∧ ∀ m, m < j → vals (k + m) ≠ 0)) →
      (procSyms vals i k nb st).huff_size (vals (k + j)) = i
      ∧ (procSyms vals i k nb st).huff_code (vals (k + j)) = (st.code + j) % 65536 := by
  intro nb
  induction nb with
  | zero => intro j k st hj; exact absurd hj (Nat.not_lt_zero j)
  | succ n ih =>
      intro j k st hj hcase
      cases j with
      | zero =>
          simp only [Nat.add_zero] at hcase ⊢
          have hcond : vals k ≠ 0 ∨ st.huff_size (vals k) = 0 := by
            rcases hcase with ⟨hnz, _⟩ | ⟨hz, hclear, _⟩
            · exact Or.inl hnz
            · exact Or.inr (by rw [hz]; exact hclear)
          have hass : assignSym i (vals k) st =
              { huff_size := upd st.huff_size (vals k) i,
                huff_code := upd st.huff_code (vals k) (st.code % 65536),
                code := st.code + 1 } := by
            unfold assignSym
            rw [if_pos hcond]
          have hsize1 : (assignSym i (vals k) st).huff_size (vals k) = i := by
            rw [hass]
            simp [upd]
          have hcode1 : (assignSym i (vals k) st).huff_code (vals k) = st.code % 65536 := by
            rw [hass]
            simp [upd]
          rcases hcase with ⟨hnz, hno⟩ | ⟨hz, hclear, _⟩
          · have hrest : ∀ m, m < n → vals (k + 1 + m) ≠ vals k := by
              intro m hm
              have hidx : k + 1 + m = k + (m + 1) := by omega
              rw [hidx]
              exact hno (m + 1) (Nat.succ_pos m) (by omega)
            have hfro := procSyms_not_occurs vals i (vals k) n (k + 1)
              (assignSym i (vals k) st) hrest
            constructor
            · show (procSyms vals i (k + 1) n (assignSym i (vals k) st)).huff_size (vals k) = i
              rw [hfro.1, hsize1]
            · show (procSyms vals i (k + 1) n (assignSym i (vals k) st)).huff_code (vals k)
                  = st.code % 65536
              rw [hfro.2, hcode1]
          · have hsize0 : (assignSym i (vals k) st).huff_size 0 = i := by
              rw [hass]
              show (upd st.huff_size (vals k) i) 0 = i
              unfold upd
              rw [if_pos hz.symm]
            have hcode0 : (assignSym i (vals k) st).huff_code 0 = st.code % 65536 := by
              rw [hass]
              show (upd st.huff_code (vals k) (st.code % 65536)) 0 = st.code % 65536
              unfold upd
              rw [if_pos hz.symm]
            have hset : (assignSym i (vals k) st).huff_size 0 ≠ 0 := by
              rw [hsize0]
              omega
            have hfro := procSyms_zero_frozen vals i n (k + 1)
              (assignSym i (vals k) st) hset
            rw [hz] at hsize0 hcode0 hfro
            constructor
            · show (procSyms vals i (k + 1) n (assignSym i (vals k) st)).huff_size (vals k) = i
              rw [hz, hfro.1, hsize0]
            · show (procSyms vals i (k + 1) n (assignSym i (vals k) st)).huff_code (vals k)
                  = st.code % 65536
              rw [hz, hfro.2, hcode0]
      | succ j' =>
          have hj' : j' < n := by omega
          have hidx : ∀ m : Nat, k + 1 + m = k + (m + 1) := by intro m; omega
          have hcase' :
              (vals (k + 1 + j') ≠ 0
                ∧ ∀ m, j' < m → m < n → vals (k + 1 + m) ≠ vals (k + 1 + j'))
              ∨ (vals (k + 1 + j') = 0
                  ∧ (assignSym i (vals k) st).huff_size 0 = 0
                  ∧ ∀ m, m < j' → vals (k + 1 + m) ≠ 0) := by
            rcases hcase with ⟨hnz, hno⟩ | ⟨hz, hclear, hfirst⟩
            · refine Or.inl ⟨by rw [hidx j']; exact hnz, ?_⟩
              intro m hm1 hm2
              rw [hidx m, hidx j']
              exact hno (m + 1) (by omega) (by omega)
            · have hk0 : vals k ≠ 0 := by
                have := hfirst 0 (Nat.succ_pos j')
                simpa using this
              refine Or.inr ⟨by rw [hidx j']; exact hz, ?_, ?_⟩
              · rw [(assignSym_other i (vals k) 0 st (Ne.symm hk0)).1]
                exact hclear
              · intro m hm
                rw [hidx m]
                exact hfirst (m + 1) (by omega)
          have hih := ih j' (k + 1) (assignSym i (vals k) st) hj' hcase'
          have hca : (assignSym i (vals k) st).code = st.code + 1 := assignSym_code _ _ _
          rw [hca] at hih
          have hidx' : k + 1 + j' = k + (j' + 1) := hidx j'
          rw [hidx'] at hih
          constructor
          · show (procSyms vals i (k + 1) n (assignSym i (vals k) st)).huff_size
                (vals (k + (j' + 1))) = i
            exact hih.1
          · show (procSyms vals i (k + 1) n (assignSym i (vals k) st)).huff_code
                (vals (k + (j' + 1))) = (st.code + (j' + 1)) % 65536
            rw [hih.2]
            omega

/-- Symbol count of a cons of levels. -/
theorem bitsSumList_cons (bits : Nat → Nat) (a : Nat) (l : List Nat) :
    bitsSumList bits (a :: l) = bits a + bitsSumList bits l := by
  simp [bitsSumList]

/-- Symbol count of an append of levels. -/
theorem bitsSumList_append (bits : Nat → Nat) (l1 l2 : List Nat) :
    bitsSumList bits (l1 ++ l2) = bitsSumList bits l1 + bitsSumList bits l2 := by
  simp [bitsSumList]

/-- A symbol value not occurring among the positions covered by the given
levels keeps its entry through the outer loop. -/
theorem procLevels_not_occurs (bits vals : Nat → Nat) (t : Nat) :
    ∀ (L : List Nat) (k : Nat) (st : HuffState),
      (∀ q, k ≤ q → q < k + bitsSumList bits L → vals q ≠ t) →
      (procLevels bits vals L k st).huff_size t = st.huff_size t
      ∧ (procLevels bits vals L k st).huff_code t = st.huff_code t := by
  intro L
  induction L with
  | nil => intro k st _; exact ⟨rfl, rfl⟩
  | cons i rest ih =>
      intro k st hno
      have hlev : ∀ m, m < bits i → vals (k + m) ≠ t := by
        intro m hm
        refine hno (k + m) (by omega) ?_
        rw [bitsSumList_cons]
        omega
      have hrest : ∀ q, k + bits i ≤ q → q < k + bits i + bitsSumList bits rest →
          vals q ≠ t := by
        intro q hq1 hq2
        refine hno q (by omega) ?_
        rw [bitsSumList_cons]
        omega
      have h1 := procSyms_not_occurs vals i t (bits i) k st hlev
      have h2 := ih (k + bits i)
        { procSyms vals i k (bits i) st with
            code := (procSyms vals i k (bits i) st).code * 2 } hrest
      constructor
      · show (procLevels bits vals rest (k + bits i) _).huff_size t = _
        rw [h2.1]
        exact h1.1
      · show (procLevels bits vals rest (k + bits i) _).huff_code t = _
        rw [h2.2]
        exact h1.2

/-- Once `huff_size[0]` is non-zero, entry 0 is frozen through the outer
loop. -/
theorem procLevels_zero_frozen (bits vals : Nat → Nat) :
    ∀ (L : List Nat) (k : Nat) (st : HuffState), st.huff_size 0 ≠ 0 →
      (procLevels bits vals L k st).huff_size 0 = st.huff_size 0
      ∧ (procLevels bits vals L k st).huff_code 0 = st.huff_code 0 := by
  intro L
  induction L with
  | nil => intro k st _; exact ⟨rfl, rfl⟩
  | cons i rest ih =>
      intro k st h
      have h1 := procSyms_zero_frozen vals i (bits i) k st h
      have h2 := ih (k + bits i)
        { procSyms vals i k (bits i) st with
            code := (procSyms vals i k (bits i) st).code * 2 }
        (by show (procSyms vals i k (bits i) st).huff_size 0 ≠ 0
            rw [h1.1]
            exact h)
      constructor
      · show (procLevels bits vals rest (k + bits i) _).huff_size 0 = _
        rw [h2.1]
        exact h1.1
      · show (procLevels bits vals rest (k + bits i) _).huff_code 0 = _
        rw [h2.2]
        exact h1.2

/-- Code-counter evolution over a cons of levels. -/
theorem ctrFoldList_cons (bits : Nat → Nat) (c a : Nat) (l : List Nat) :
    ctrFoldList bits c (a :: l) = ctrFoldList bits ((c + bits a) * 2) l := rfl

/-- Main run lemma: processing the levels `pre ++ i :: post` from index
`k` assigns to the `j`-th symbol of level `i` (at value-table position
`p`) the length `i` and the code reached by folding the counter over
`pre` plus `j`, provided the symbol is non-zero with no later duplicate,
or is the first zero with `huff_size[0]` still clear. -/
theorem procLevels_assign (bits vals : Nat → Nat) :
    ∀ (pre : List Nat) (i : Nat) (post : List Nat) (j k p : Nat) (st : HuffState),
      1 ≤ i → j < bits i → p = k + bitsSumList bits pre + j →
      ((vals p ≠ 0 ∧ ∀ q, p < q → q < k + bitsSumList bits (pre ++ i :: post) →
          vals q ≠ vals p)
        ∨ (vals p = 0 ∧ st.huff_size 0 = 0 ∧ ∀ q, k ≤ q → q < p → vals q ≠ 0)) →
      (procLevels bits vals (pre ++ i :: post) k st).huff_size (vals p) = i
      ∧ (procLevels bits vals (pre ++ i :: post) k st).huff_code (vals p)
          = (ctrFoldList bits st.code pre + j) % 65536 := by
  intro pre
  induction pre with
  | nil =>
      intro i post j k p st hi hj hp hcase
      have hp' : p = k + j := by
        simpa [bitsSumList] using hp
      subst hp'
      simp only [List.nil_append] at hcase ⊢
      have hbound : bitsSumList bits (i :: post) = bits i + bitsSumList bits post :=
        bitsSumList_cons bits i post
      have hassign := procSyms_assign vals i hi (bits i) j k st hj (by
        rcases hcase with ⟨hnz, hno⟩ | ⟨hz, hclear, hfirst⟩
        · refine Or.inl ⟨hnz, ?_⟩
          intro m hm1 hm2
          exact hno (k + m) (by omega) (by rw [hbound]; omega)
        · refine Or.inr ⟨hz, hclear, ?_⟩
          intro m hm
          exact hfirst (k + m) (by omega) (by omega))
      have hctr : (ctrFoldList bits st.code [] + j) % 65536 = (st.code + j) % 65536 := by
        simp [ctrFoldList]
      rcases hcase with ⟨hnz, hno⟩ | ⟨hz, hclear, hfirst⟩
      · have hfro := procLevels_not_occurs bits vals (vals (k + j)) post (k + bits i)
          { procSyms vals i k (bits i) st with
              code := (procSyms vals i k (bits i) st).code * 2 }
          (by
            intro q hq1 hq2
            refine hno q (by omega) ?_
            rw [hbound]
            omega)
        constructor
        · show (procLevels bits vals post (k + bits i) _).huff_size (vals (k + j)) = i
          rw [hfro.1]
          exact hassign.1
        · show (procLevels bits vals post (k + bits i) _).huff_code (vals (k + j))
              = (ctrFoldList bits st.code [] + j) % 65536
          rw [hctr, hfro.2]
          exact hassign.2
      · have hset : (procSyms vals i k (bits i) st).huff_size 0 ≠ 0 := by
          rw [← hz]
          rw [hassign.1]
          omega
        have hfro := procLevels_zero_frozen bits vals post (k + bits i)
          { procSyms vals i k (bits i) st with
              code := (procSyms vals i k (bits i) st).code * 2 }
          hset
        rw [hz] at hassign
        constructor
        · show (procLevels bits vals post (k + bits i) _).huff_size (vals (k + j)) = i
          rw [hz, hfro.1]
          exact hassign.1
        · show (procLevels bits vals post (k + bits i) _).huff_code (vals (k + j))
              = (ctrFoldList bits st.code [] + j) % 65536
          rw [hctr, hz, hfro.2]
          exact hassign.2
  | cons i0 pre' ih =>
      intro i post j k p st hi hj hp hcase
      have hp' : p = (k + bits i0) + bitsSumList bits pre' + j := by
        rw [hp, bitsSumList_cons]
        omega
      have hboundall : k + bitsSumList bits ((i0 :: pre') ++ i :: post) =
          (k + bits i0) + bitsSumList bits (pre' ++ i :: post) := by
        rw [List.cons_append, bitsSumList_cons]
        omega
      have hcase' :
          (vals p ≠ 0 ∧ ∀ q, p < q →
              q < (k + bits i0) + bitsSumList bits (pre' ++ i :: post) →
              vals q ≠ vals p)
          ∨ (vals p = 0
              ∧ ({ procSyms vals i0 k (bits i0) st with
                    code := (procSyms vals i0 k (bits i0) st).code * 2 } :
                  HuffState).huff_size 0 = 0
              ∧ ∀ q, k + bits i0 ≤ q → q < p → vals q ≠ 0) := by
        rcases hcase with ⟨hnz, hno⟩ | ⟨hz, hclear, hfirst⟩
        · refine Or.inl ⟨hnz, ?_⟩
          intro q hq1 hq2
          exact hno q hq1 (by omega)
        · refine Or.inr ⟨hz, ?_, ?_⟩
          · show (procSyms vals i0 k (bits i0) st).huff_size 0 = 0
            have hlev : ∀ m, m < bits i0 → vals (k + m) ≠ 0 := by
              intro m hm
              exact hfirst (k + m) (by omega) (by omega)
            rw [(procSyms_not_occurs vals i0 0 (bits i0) k st hlev).1]
            exact hclear
          · intro q hq1 hq2
            exact hfirst q (by omega) hq2
      have hih := ih i post j (k + bits i0) p
        { procSyms vals i0 k (bits i0) st with
            code := (procSyms vals i0 k (bits i0) st).code * 2 }
        hi hj hp' hcase'
      have hctr : ctrFoldList bits
          ({ procSyms vals i0 k (bits i0) st with
              code := (procSyms vals i0 k (bits i0) st).code * 2 } : HuffState).code
          pre' = ctrFoldList bits st.code (i0 :: pre') := by
        rw [ctrFoldList_cons]
        show ctrFoldList bits ((procSyms vals i0 k (bits i0) st).code * 2) pre' = _
        rw [procSyms_code]
      constructor
      · show (procLevels bits vals (pre' ++ i :: post) (k + bits i0) _).huff_size (vals p) = i
        exact hih.1
      · show (procLevels bits vals (pre' ++ i :: post) (k + bits i0) _).huff_code (vals p)
            = (ctrFoldList bits st.code (i0 :: pre') + j) % 65536
        rw [← hctr]
        exact hih.2

/-- Splitting a block of consecutive levels. -/
theorem levelsFrom_append (s a b : Nat) :
    levelsFrom s (a + b) = levelsFrom s a ++ levelsFrom (s + a) b := by
  induction a generalizing s with
  | zero =>
      simp [levelsFrom]
  | succ n ih =>
      have h1 : n + 1 + b = (n + b) + 1 := by omega
      rw [show s + (n + 1) = (s + 1) + n from by omega, h1]
      show s :: levelsFrom (s + 1) (n + b)
          = (s :: levelsFrom (s + 1) n) ++ levelsFrom ((s + 1) + n) b
      rw [ih (s + 1), List.cons_append]

/-- The symbol count over levels `1..n` equals `bitsSum`. -/
theorem bitsSumList_levelsFrom (bits : Nat → Nat) :
    ∀ n, bitsSumList bits (levelsFrom 1 n) = bitsSum bits n := by
  intro n
  induction n with
  | zero => rfl
  | succ m ih =>
      rw [show m + 1 = m + 1 from rfl, levelsFrom_append 1 m 1,
        bitsSumList_append]
      have h1 : bitsSumList bits (levelsFrom (1 + m) 1) = bits (m + 1) := by
        show bitsSumList bits [1 + m] = bits (m + 1)
        rw [show 1 + m = m + 1 from by omega]
        simp [bitsSumList]
      rw [h1, ih]
      rfl

/-- The code-counter fold over levels `1..n` equals `canonStart (n+1)`. -/
theorem ctrFoldList_levelsFrom (bits : Nat → Nat) :
    ∀ n, ctrFoldList bits 0 (levelsFrom 1 n) = canonStart bits (n + 1) := by
  intro n
  induction n with
  | zero => rfl
  | succ m ih =>
      rw [levelsFrom_append 1 m 1]
      have h1 : ∀ c, ctrFoldList bits c (levelsFrom 1 m ++ levelsFrom (1 + m) 1)
          = (ctrFoldList bits c (levelsFrom 1 m) + bits (1 + m)) * 2 := by
        intro c
        show (List.foldl _ c (levelsFrom 1 m ++ levelsFrom (1 + m) 1)) = _
        rw [List.foldl_append]
        rfl
      rw [h1, ih, show 1 + m = m + 1 from by omega]
      rfl

/-- The 16 levels walked by `ff_mjpeg_build_huffman_codes` split around
any `i ∈ [1, 16]`. -/
theorem jpegLevels_decomp : ∀ i, 1 ≤ i → i ≤ 16 →
    jpegLevels = levelsFrom 1 (i - 1) ++ i :: levelsFrom (i + 1) (16 - i) := by
  intro i h1 h2
  have h3 : jpegLevels = levelsFrom 1 16 := rfl
  have h4 : levelsFrom 1 16 = levelsFrom 1 ((i - 1) + (1 + (16 - i))) := by
    have h0 : (16 : Nat) = (i - 1) + (1 + (16 - i)) := by omega
    rw [← h0]
  rw [h3, h4, levelsFrom_append]
  have h5 : 1 + (i - 1) = i := by omega
  have h6 : 1 + (16 - i) = (16 - i) + 1 := by omega
  rw [h5, h6]
  rfl

/-- C2: canonical Huffman code assignment with the duplicate-symbol-0
quirk.  For every bits table and value table, for the `j`-th symbol of
code length `i` (global value-table position `p = bitsSum (i-1) + j`):
if the symbol is non-zero and does not occur again later, it ends with
length `i` and code `(canonStart i + j) % 2^16` — consecutive codes
within a length in value-table order (stored into the `uint16_t` array),
the counter doubling between lengths; and if
the symbol is 0 and no earlier symbol is 0, entry 0 ends with exactly
this first occurrence's length and code, later occurrences of 0 leaving
it unchanged. -/
theorem C2_huffman_canonical (huff_size0 huff_code0 bits vals : Nat → Nat)
    (i j : Nat) (h1 : 1 ≤ i) (h2 : i ≤ 16) (hj : j < bits i) :
    ((vals (bitsSum bits (i - 1) + j) ≠ 0
        ∧ ∀ q, q < bitsSum bits 16 → bitsSum bits (i - 1) + j < q →
            vals q ≠ vals (bitsSum bits (i - 1) + j)) →
      (ff_mjpeg_build_huffman_codes huff_size0 huff_code0 bits vals).huff_size
          (vals (bitsSum bits (i - 1) + j)) = i
      ∧ (ff_mjpeg_build_huffman_codes huff_size0 huff_code0 bits vals).huff_code
          (vals (bitsSum bits (i - 1) + j)) = (canonStart bits i + j) % 65536)
    ∧ ((vals (bitsSum bits (i - 1) + j) = 0
        ∧ ∀ q, q < bitsSum bits (i - 1) + j → vals q ≠ 0) →
      (ff_mjpeg_build_huffman_codes huff_size0 huff_code0 bits vals).huff_size 0 = i
      ∧ (ff_mjpeg_build_huffman_codes huff_size0 huff_code0 bits vals).huff_code 0
          = (canonStart bits i + j) % 65536) := by
  have hdec := jpegLevels_decomp i h1 h2
  have hsum := bitsSumList_levelsFrom bits (i - 1)
  have hsum16 : bitsSumList bits jpegLevels = bitsSum bits 16 :=
    bitsSumList_levelsFrom bits 16
  have hctr : ctrFoldList bits 0 (levelsFrom 1 (i - 1)) = canonStart bits i := by
    rw [ctrFoldList_levelsFrom, show i - 1 + 1 = i from by omega]
  constructor
  · intro ⟨hnz, hno⟩
    have h := procLevels_assign bits vals (levelsFrom 1 (i - 1)) i
      (levelsFrom (i + 1) (16 - i)) j 0 (bitsSum bits (i - 1) + j)
      { huff_size := upd huff_size0 0 0, huff_code := huff_code0, code := 0 }
      h1 hj (by rw [hsum]; omega)
      (Or.inl ⟨hnz, by
        intro q hq1 hq2
        refine hno q ?_ hq1
        rw [← hsum16, hdec]
        omega⟩)
    rw [← hdec] at h
    refine ⟨h.1, ?_⟩
    show (procLevels bits vals jpegLevels 0
        { huff_size := upd huff_size0 0 0, huff_code := huff_code0, code := 0 }).huff_code
        (vals (bitsSum bits (i - 1) + j)) = (canonStart bits i + j) % 65536
    rw [h.2]
    dsimp only
    rw [hctr]
  · intro ⟨hz, hfirst⟩
    have h := procLevels_assign bits vals (levelsFrom 1 (i - 1)) i
      (levelsFrom (i + 1) (16 - i)) j 0 (bitsSum bits (i - 1) + j)
      { huff_size := upd huff_size0 0 0, huff_code := huff_code0, code := 0 }
      h1 hj (by rw [hsum]; omega)
      (Or.inr ⟨hz, by simp [upd], by
        intro q hq1 hq2
        exact hfirst q hq2⟩)
    rw [← hdec, hz] at h
    refine ⟨h.1, ?_⟩
    show (procLevels bits vals jpegLevels 0
        { huff_size := upd huff_size0 0 0, huff_code := huff_code0, code := 0 }).huff_code 0
        = (canonStart bits i + j) % 65536
    rw [h.2]
    dsimp only
    rw [hctr]

/-- Witness for C2: a one-symbol table (symbol 5 at length 1) through the
first clause, and a first-symbol-0 table through the second clause. -/
theorem C2_huffman_canonical_witness :
    ((ff_mjpeg_build_huffman_codes (fun _ => 0) (fun _ => 0)
        (fun l => if l = 1 then 1 else 0) (fun k => if k = 0 then 5 else 0)).huff_size 5 = 1
      ∧ (ff_mjpeg_build_huffman_codes (fun _ => 0) (fun _ => 0)
        (fun l => if l = 1 then 1 else 0) (fun k => if k = 0 then 5 else 0)).huff_code 5 = 0)
    ∧ ((ff_mjpeg_build_huffman_codes (fun _ => 0) (fun _ => 0)
        (fun l => if l = 2 then 3 else 0) (fun _ => 0)).huff_size 0 = 2
      ∧ (ff_mjpeg_build_huffman_codes (fun _ => 0) (fun _ => 0)
        (fun l => if l = 2 then 3 else 0) (fun _ => 0)).huff_code 0 = 0) := by
  constructor
  · have h := (C2_huffman_canonical (fun _ => 0) (fun _ => 0)
        (fun l => if l = 1 then 1 else 0) (fun k => if k = 0 then 5 else 0) 1 0
        (by decide) (by decide) (by decide)).1 ⟨by decide, by decide⟩
    simpa [bitsSum, canonStart] using h
  · have h := (C2_huffman_canonical (fun _ => 0) (fun _ => 0)
        (fun l => if l = 2 then 3 else 0) (fun _ => 0) 2 0
        (by decide) (by decide) (by decide)).2 ⟨by decide, by decide⟩
    simpa [bitsSum, canonStart] using h

/-- The real and unconditional builds stay in lock-step on the code
counter and on every non-zero entry through the inner loop: a skipped
duplicate symbol 0 still increments the counter exactly as an assigned
one. -/
theorem procSyms_agree (vals : Nat → Nat) (i : Nat) :
    ∀ nb k st st', st.code = st'.code →
      (∀ t, t ≠ 0 → st.huff_size t = st'.huff_size t ∧ st.huff_code t = st'.huff_code t) →
      (procSyms vals i k nb st).code = (procSymsAlways vals i k nb st').code
      ∧ ∀ t, t ≠ 0 →
          (procSyms vals i k nb st).huff_size t
              = (procSymsAlways vals i k nb st').huff_size t
          ∧ (procSyms vals i k nb st).huff_code t
              = (procSymsAlways vals i k nb st').huff_code t := by
  intro nb
  induction nb with
  | zero => intro k st st' hc hm; exact ⟨hc, hm⟩
  | succ n ih =>
      intro k st st' hc hm
      apply ih (k + 1) (assignSym i (vals k) st) (assignSymAlways i (vals k) st')
      · rw [assignSym_code]
        show st.code + 1 = st'.code + 1
        omega
      · intro t ht
        by_cases hts : t = vals k
        · have hcnd : vals k ≠ 0 := by
            rw [← hts]
            exact ht
          have ha : assignSym i (vals k) st =
              { huff_size := upd st.huff_size (vals k) i,
                huff_code := upd st.huff_code (vals k) (st.code % 65536),
                code := st.code + 1 } := by
            unfold assignSym
            rw [if_pos (Or.inl hcnd)]
          rw [ha, hts]
          constructor
          · show upd st.huff_size (vals k) i (vals k) = upd st'.huff_size (vals k) i (vals k)
            unfold upd
            simp
          · show upd st.huff_code (vals k) (st.code % 65536) (vals k)
                = upd st'.huff_code (vals k) (st'.code % 65536) (vals k)
            unfold upd
            simp [hc]
        · have ho1 := assignSym_other i (vals k) t st hts
          have ho2 := assignSymAlways_other i (vals k) t st' hts
          refine ⟨?_, ?_⟩
          · rw [ho1.1, ho2.1]
            exact (hm t ht).1
          · rw [ho1.2, ho2.2]
            exact (hm t ht).2

/-- Lock-step agreement through the outer loop. -/
theorem procLevels_agree (bits vals : Nat → Nat) :
    ∀ (L : List Nat) k st st', st.code = st'.code →
      (∀ t, t ≠ 0 → st.huff_size t = st'.huff_size t ∧ st.huff_code t = st'.huff_code t) →
      (procLevels bits vals L k st).code = (procLevelsAlways bits vals L k st').code
      ∧ ∀ t, t ≠ 0 →
          (procLevels bits vals L k st).huff_size t
              = (procLevelsAlways bits vals L k st').huff_size t
          ∧ (procLevels bits vals L k st).huff_code t
              = (procLevelsAlways bits vals L k st').huff_code t := by
  intro L
  induction L with
  | nil => intro k st st' hc hm; exact ⟨hc, hm⟩
  | cons i rest ih =>
      intro k st st' hc hm
      have hstep := procSyms_agree vals i (bits i) k st st' hc hm
      apply ih (k + bits i)
      · show (procSyms vals i k (bits i) st).code * 2 = _
        rw [hstep.1]
      · intro t ht
        exact hstep.2 t ht

/-- C10: a skipped duplicate occurrence of symbol 0 still consumes its
code slot — the real build and the build that would have assigned the
duplicate anyway agree on the final code counter and on the size and code
of every non-zero symbol. -/
theorem C10_skipped_slot (huff_size0 huff_code0 bits vals : Nat → Nat) (s : Nat)
    (hs : s ≠ 0) :
    (ff_mjpeg_build_huffman_codes huff_size0 huff_code0 bits vals).huff_size s
      = (ff_mjpeg_build_huffman_codes_always huff_size0 huff_code0 bits vals).huff_size s
    ∧ (ff_mjpeg_build_huffman_codes huff_size0 huff_code0 bits vals).huff_code s
      = (ff_mjpeg_build_huffman_codes_always huff_size0 huff_code0 bits vals).huff_code s
    ∧ (ff_mjpeg_build_huffman_codes huff_size0 huff_code0 bits vals).code
      = (ff_mjpeg_build_huffman_codes_always huff_size0 huff_code0 bits vals).code := by
  have h := procLevels_agree bits vals jpegLevels 0
    { huff_size := upd huff_size0 0 0, huff_code := huff_code0, code := 0 }
    { huff_size := upd huff_size0 0 0, huff_code := huff_code0, code := 0 }
    rfl (fun t _ => ⟨rfl, rfl⟩)
  exact ⟨(h.2 s hs).1, (h.2 s hs).2, h.1⟩

/-- Witness for C10 on a table whose first two symbols are a duplicated 0
and whose third symbol is 1. -/
theorem C10_skipped_slot_witness :
    (ff_mjpeg_build_huffman_codes (fun _ => 0) (fun _ => 0)
        (fun l => if l = 1 then 2 else if l = 2 then 1 else 0)
        (fun k => if k = 2 then 1 else 0)).huff_size 1
      = (ff_mjpeg_build_huffman_codes_always (fun _ => 0) (fun _ => 0)
        (fun l => if l = 1 then 2 else if l = 2 then 1 else 0)
        (fun k => if k = 2 then 1 else 0)).huff_size 1
    ∧ (ff_mjpeg_build_huffman_codes (fun _ => 0) (fun _ => 0)
        (fun l => if l = 1 then 2 else if l = 2 then 1 else 0)
        (fun k => if k = 2 then 1 else 0)).huff_code 1
      = (ff_mjpeg_build_huffman_codes_always (fun _ => 0) (fun _ => 0)
        (fun l => if l = 1 then 2 else if l = 2 then 1 else 0)
        (fun k => if k = 2 then 1 else 0)).huff_code 1
    ∧ (ff_mjpeg_build_huffman_codes (fun _ => 0) (fun _ => 0)
        (fun l => if l = 1 then 2 else if l = 2 then 1 else 0)
        (fun k => if k = 2 then 1 else 0)).code
      = (ff_mjpeg_build_huffman_codes_always (fun _ => 0) (fun _ => 0)
        (fun l => if l = 1 then 2 else if l = 2 then 1 else 0)
        (fun k => if k = 2 then 1 else 0)).code :=
  C10_skipped_slot (fun _ => 0) (fun _ => 0)
    (fun l => if l = 1 then 2 else if l = 2 then 1 else 0)
    (fun k => if k = 2 then 1 else 0) 1 (by decide)

end Mjpeg
